import Mathlib

/-!
Shallow embedding of the location-memory persistence model and the gallery
merge logic of the repository (a React Native app).  The two source files are
the memories screen (`loadMemories` / `saveMemories` / `getCurrentLocation` /
`createMemory` / `deleteMemory`) and `app/gallery.tsx`
(`getPhotoInfo` / `loadPhotos`).

JS numbers used as sort keys (`timestamp`, `creationTime`) are integral
(`Date.now()` values), so they are embedded as `Int`; latitude/longitude are
carried opaquely and embedded as `Rat`.  `AsyncStorage` holds a single JSON
blob under one key; serialization round-trips lists faithfully, so the blob
is embedded as `absent`, `corrupt` (a blob `JSON.parse` throws on), or
`good l`.  `Array.prototype.sort` is stable (ES2019) and a stable sort for a
total preorder is unique, so it is embedded as `List.insertionSort`, which is
stable.  Device-API calls and `Alert`/`console` calls are embedded as explicit
environment inputs and an emitted effect list.
-/

namespace MemoriesApp

/-- The coordinate record returned by `getCurrentLocation` and stored in
`LocationMemory.location`.  The TS type declares `address?: string`, hence
`Option String`. -/
structure LocationCoords where
  latitude : Rat
  longitude : Rat
  address : Option String
deriving DecidableEq

/-- The `LocationMemory` interface of the memories screen. -/
structure LocationMemory where
  id : String
  title : String
  description : String
  emoji : String
  photoUri : Option String
  location : LocationCoords
  timestamp : Int
deriving DecidableEq

/-- The order used by the comparator `(a, b) => b.timestamp - a.timestamp`:
`a` may come before `b` iff `b.timestamp ≤ a.timestamp` (descending). -/
def memLE (a b : LocationMemory) : Prop := b.timestamp ≤ a.timestamp

instance : DecidableRel memLE := fun a b =>
  inferInstanceAs (Decidable (b.timestamp ≤ a.timestamp))

instance : IsTotal LocationMemory memLE :=
  ⟨fun a b => le_total b.timestamp a.timestamp⟩

instance : IsTrans LocationMemory memLE :=
  ⟨fun _ _ _ h1 h2 => le_trans h2 h1⟩

/-- The stable descending-by-`timestamp` sort performed by
`.sort((a, b) => b.timestamp - a.timestamp)`. -/
def sortByTimestampDesc (l : List LocationMemory) : List LocationMemory :=
  List.insertionSort memLE l

/-- The value stored under the `'locationMemories'` key: absent (`getItem`
returned null), a corrupt blob (`JSON.parse` throws), or a good blob holding
a list of records. -/
inductive StoredBlob
  | absent
  | corrupt
  | good (records : List LocationMemory)
deriving DecidableEq

/-- User-visible alerts and console logs emitted by the embedded operations,
plus a marker for invoking the geolocation fetch. -/
inductive Effect
  | logLoadError
  | logSaveError
  | alertSaveFailed
  | alertTitleRequired
  | alertLocationPermissionNeeded
  | logLocationError
  | alertLocationFailed
  | logGeocodeError
  | locationFetch
  | alertSuccess
deriving DecidableEq

/-- The Record Store state: the `memories` React state and the persisted
blob. -/
structure StoreState where
  memories : List LocationMemory
  stored : StoredBlob
deriving DecidableEq

/-- Embeds `loadMemories`: reads the blob; when present, parses and publishes the
parsed list sorted descending by timestamp; on a parse error, logs and leaves
the in-memory state unchanged; never rewrites storage. -/
def loadMemories (s : StoreState) : StoreState × List Effect :=
  match s.stored with
  | .absent => (s, [])
  | .corrupt => (s, [.logLoadError])
  | .good l => ({ s with memories := sortByTimestampDesc l }, [])

/-- Embeds `saveMemories`: `JSON.stringify(newMemories)` is evaluated BEFORE the
in-place `.sort`, so the persisted blob holds the input list in its given
order, while the in-memory state receives the sorted list.  On a write
failure the catch block logs and alerts and the in-memory state is untouched.
`writeOk` models whether `AsyncStorage.setItem` succeeds. -/
def saveMemories (writeOk : Bool) (newMemories : List LocationMemory)
    (s : StoreState) : StoreState × List Effect :=
  if writeOk then
    ({ memories := sortByTimestampDesc newMemories, stored := .good newMemories }, [])
  else
    (s, [.logSaveError, .alertSaveFailed])

/-- The confirmed branch of `deleteMemory` (the user pressed Delete in the
confirmation dialog): filter out the id and save. -/
def deleteMemoryConfirmed (writeOk : Bool) (id : String) (s : StoreState) :
    StoreState × List Effect :=
  saveMemories writeOk (s.memories.filter (fun m => m.id != id)) s

/-- One entry of the `reverseGeocodeAsync` result; each component may be
absent. -/
structure GeocodeEntry where
  street : Option String
  city : Option String
  region : Option String
deriving DecidableEq

/-- Environment for one geolocation fetch: the permission outcome, the
`getCurrentPositionAsync` outcome, and the `reverseGeocodeAsync` outcome. -/
structure GeoEnv where
  permissionGranted : Bool
  position : Except Unit (Rat × Rat)
  geocode : Except Unit (List GeocodeEntry)

/-- Embeds `[addr.street, addr.city, addr.region].filter(Boolean).join(', ')` on the
first geocode entry; the empty string when there is no entry.  `Boolean`
filters out both `undefined` and the empty string. -/
def addressFromGeocode (entries : List GeocodeEntry) : String :=
  match entries with
  | [] => ""
  | addr :: _ =>
    String.intercalate ", "
      (([addr.street, addr.city, addr.region].filterMap id).filter (fun s => s != ""))

/-- Embeds `getCurrentLocation`: asks for permission, fetches the position, then
best-effort reverse-geocodes; a geocode failure only logs and leaves the
address as `''`.  Returns `none` (with an alert) when permission is denied or
the position fetch fails. -/
def getCurrentLocation (env : GeoEnv) : Option LocationCoords × List Effect :=
  if !env.permissionGranted then
    (none, [.alertLocationPermissionNeeded])
  else
    match env.position with
    | .error _ => (none, [.logLocationError, .alertLocationFailed])
    | .ok (lat, lon) =>
      match env.geocode with
      | .error _ =>
        (some { latitude := lat, longitude := lon, address := some "" }, [.logGeocodeError])
      | .ok entries =>
        (some { latitude := lat, longitude := lon,
                address := some (addressFromGeocode entries) }, [])

/-- JS `String.prototype.trim()`: strip leading and trailing whitespace
(written structurally over the character list so that it evaluates). -/
def trimString (s : String) : String :=
  String.mk (((s.data.dropWhile Char.isWhitespace).reverse.dropWhile Char.isWhitespace).reverse)

/-- The composer screen state: the store plus the form fields and UI flags. -/
structure ComposerState where
  store : StoreState
  title : String
  description : String
  selectedEmoji : String
  capturedPhoto : Option String
  modalVisible : Bool
  loading : Bool
deriving DecidableEq

/-- The record `createMemory` builds once a location is available
(`id: Date.now().toString()`, trimmed title/description, current emoji and
draft photo, `timestamp: Date.now()`). -/
def composeRecord (now : Int) (s : ComposerState) (loc : LocationCoords) :
    LocationMemory :=
  { id := toString now, title := trimString s.title, description := trimString s.description,
    emoji := s.selectedEmoji, photoUri := s.capturedPhoto,
    location := loc, timestamp := now }

/-- Embeds `createMemory`: rejects an empty trimmed title with an alert before
anything else (no location fetch, no save); otherwise fetches the location
(returning to the form, loading cleared, when it fails); otherwise builds the
record, prepends it, saves, resets the form, closes the modal and alerts
success.  The success alert fires even when the save failed, because
`saveMemories` catches its own error. -/
def createMemory (env : GeoEnv) (now : Int) (writeOk : Bool)
    (s : ComposerState) : ComposerState × List Effect :=
  if trimString s.title = "" then
    (s, [.alertTitleRequired])
  else
    let fetched := getCurrentLocation env
    match fetched.1 with
    | none => ({ s with loading := false }, .locationFetch :: fetched.2)
    | some loc =>
      let updated := composeRecord now s loc :: s.store.memories
      let saved := saveMemories writeOk updated s.store
      ({ store := saved.1, title := "", description := "", selectedEmoji := "📍",
         capturedPhoto := none, modalVisible := false, loading := false },
       .locationFetch :: (fetched.2 ++ saved.2 ++ [.alertSuccess]))

/-- A concrete record with timestamp 1, for concrete instances. -/
def exMemOld : LocationMemory :=
  { id := "1", title := "old", description := "", emoji := "📍", photoUri := none,
    location := { latitude := 0, longitude := 0, address := some "" }, timestamp := 1 }

/-- A concrete record with timestamp 2, for concrete instances. -/
def exMemNew : LocationMemory :=
  { id := "2", title := "new", description := "", emoji := "📍", photoUri := none,
    location := { latitude := 0, longitude := 0, address := some "" }, timestamp := 2 }

end MemoriesApp

/-- Stability of `insertionSort`, filter form: filtering by a predicate whose
selected elements are pairwise related (e.g. all share the sort key) commutes
with sorting, so those elements keep their input order. -/
theorem filter_insertionSort_of_pairwise {α : Type} (r : α → α → Prop)
    [DecidableRel r] (p : α → Bool) (l : List α)
    (hp : ∀ a ∈ l, ∀ b ∈ l, p a = true → p b = true → r a b) :
    (List.insertionSort r l).filter p = l.filter p := by
  have hpw : (l.filter p).Pairwise r :=
    List.pairwise_of_forall_mem_list (fun a ha b hb =>
      hp a (List.mem_of_mem_filter ha) b (List.mem_of_mem_filter hb)
        (List.of_mem_filter ha) (List.of_mem_filter hb))
  have hsub : List.Sublist (l.filter p) (List.insertionSort r l) :=
    List.sublist_insertionSort hpw (List.filter_sublist l)
  have hself : (l.filter p).filter p = l.filter p :=
    List.filter_eq_self.mpr (fun a ha => List.of_mem_filter ha)
  have hsub2 : List.Sublist (l.filter p) ((List.insertionSort r l).filter p) := by
    have h2 := hsub.filter p
    rwa [hself] at h2
  have hperm : List.Perm ((List.insertionSort r l).filter p) (l.filter p) :=
    (List.perm_insertionSort r l).filter p
  exact (hsub2.eq_of_length hperm.length_eq.symm).symm

namespace MemoriesApp

/-- C7: the descending sort is stable — for every list, the records carrying
any fixed timestamp `t` appear in the sorted output in exactly their input
order, and this order is what both a save publishes and any subsequent load
reproduces. -/
theorem equal_timestamps_keep_input_order
    (l : List LocationMemory) (s : StoreState) (t : Int) :
    (sortByTimestampDesc l).filter (fun m => m.timestamp == t)
        = l.filter (fun m => m.timestamp == t)
      ∧ (saveMemories true l s).1.memories.filter (fun m => m.timestamp == t)
          = l.filter (fun m => m.timestamp == t)
      ∧ (loadMemories (saveMemories true l s).1).1.memories.filter
            (fun m => m.timestamp == t)
          = l.filter (fun m => m.timestamp == t) := by
  have h : (sortByTimestampDesc l).filter (fun m => m.timestamp == t)
      = l.filter (fun m => m.timestamp == t) := by
    refine filter_insertionSort_of_pairwise memLE _ l ?_
    intro a _ b _ hpa hpb
    have ha : a.timestamp = t := by simpa using hpa
    have hb : b.timestamp = t := by simpa using hpb
    simp [memLE, ha, hb]
  exact ⟨h, h, h⟩

/-- C8: deleting an id that is not in the store is a no-op — on a store state
whose in-memory list is sorted and matches the persisted blob (as every state
the app reaches does), the state is unchanged and no alert or log is
emitted. -/
theorem delete_absent_id_is_noop (i : String) (mem : List LocationMemory)
    (hmem : ∀ m ∈ mem, m.id ≠ i)
    (hsorted : List.Sorted memLE mem) :
    deleteMemoryConfirmed true i ⟨mem, .good mem⟩ = (⟨mem, .good mem⟩, []) := by
  have hf : mem.filter (fun m => m.id != i) = mem :=
    List.filter_eq_self.mpr (fun m hm => by simpa using hmem m hm)
  have hsort : sortByTimestampDesc mem = mem := hsorted.insertionSort_eq
  show (StoreState.mk (sortByTimestampDesc (mem.filter (fun m => m.id != i)))
          (.good (mem.filter (fun m => m.id != i))), ([] : List Effect))
      = (StoreState.mk mem (.good mem), [])
  rw [hf, hsort]

/-- Closed instance of `delete_absent_id_is_noop` at a concrete sorted store
and an absent id. -/
theorem delete_absent_id_is_noop_witness :
    deleteMemoryConfirmed true "zzz" ⟨[exMemNew, exMemOld], .good [exMemNew, exMemOld]⟩
      = (⟨[exMemNew, exMemOld], .good [exMemNew, exMemOld]⟩, []) :=
  delete_absent_id_is_noop "zzz" [exMemNew, exMemOld] (by decide) (by decide)

/-- C6: with an empty trimmed title, `createMemory` only alerts — the whole
composer state (store included) is unchanged, no location fetch happens, and
repeating the attempt does the same thing. -/
theorem empty_title_rejected_before_fetch_or_save
    (env : GeoEnv) (now : Int) (writeOk : Bool) (s : ComposerState)
    (h : trimString s.title = "") :
    createMemory env now writeOk s = (s, [Effect.alertTitleRequired])
      ∧ createMemory env now writeOk (createMemory env now writeOk s).1
          = (s, [Effect.alertTitleRequired])
      ∧ Effect.locationFetch ∉ (createMemory env now writeOk s).2
      ∧ (createMemory env now writeOk s).1.store = s.store := by
  have h1 : createMemory env now writeOk s = (s, [Effect.alertTitleRequired]) := by
    unfold createMemory
    rw [if_pos h]
  refine ⟨h1, ?_, ?_, ?_⟩
  · rw [h1]
    exact h1
  · rw [h1]
    simp
  · rw [h1]

/-- Closed instance of `empty_title_rejected_before_fetch_or_save` at a
whitespace-only title. -/
theorem empty_title_rejected_witness :
    createMemory ⟨true, .ok (0, 0), .ok []⟩ 7 true
        ⟨⟨[], .absent⟩, "  ", "", "📍", none, true, false⟩
        = (⟨⟨[], .absent⟩, "  ", "", "📍", none, true, false⟩, [Effect.alertTitleRequired])
      ∧ createMemory ⟨true, .ok (0, 0), .ok []⟩ 7 true
          (createMemory ⟨true, .ok (0, 0), .ok []⟩ 7 true
            ⟨⟨[], .absent⟩, "  ", "", "📍", none, true, false⟩).1
          = (⟨⟨[], .absent⟩, "  ", "", "📍", none, true, false⟩, [Effect.alertTitleRequired])
      ∧ Effect.locationFetch ∉ (createMemory ⟨true, .ok (0, 0), .ok []⟩ 7 true
          ⟨⟨[], .absent⟩, "  ", "", "📍", none, true, false⟩).2
      ∧ (createMemory ⟨true, .ok (0, 0), .ok []⟩ 7 true
          ⟨⟨[], .absent⟩, "  ", "", "📍", none, true, false⟩).1.store = ⟨[], .absent⟩ :=
  empty_title_rejected_before_fetch_or_save ⟨true, .ok (0, 0), .ok []⟩ 7 true
    ⟨⟨[], .absent⟩, "  ", "", "📍", none, true, false⟩ (by decide)

/-- C10: whenever `getCurrentLocation` yields a location, its `address` field
is `some` string — the empty string when reverse-geocoding failed or returned
no entries — and a successful `createMemory` hands exactly
`composeRecord now s loc` (which copies that location verbatim) to the
store. -/
theorem created_record_address_is_string
    (env : GeoEnv) (now : Int) (writeOk : Bool) (s : ComposerState)
    (loc : LocationCoords) (hloc : (getCurrentLocation env).1 = some loc)
    (htitle : ¬ trimString s.title = "") :
    (∃ str, loc.address = some str)
      ∧ ((env.geocode = .error () ∨ env.geocode = .ok []) → loc.address = some "")
      ∧ (composeRecord now s loc).location = loc
      ∧ (createMemory env now writeOk s).1.store
          = (saveMemories writeOk (composeRecord now s loc :: s.store.memories) s.store).1 := by
  refine ⟨?_, ?_, rfl, ?_⟩
  · obtain ⟨perm, pos, geo⟩ := env
    cases perm
    · simp [getCurrentLocation] at hloc
    · cases pos with
      | error e => simp [getCurrentLocation] at hloc
      | ok latlon =>
        cases geo with
        | error e =>
          simp [getCurrentLocation] at hloc
          exact ⟨"", by rw [← hloc]⟩
        | ok entries =>
          simp [getCurrentLocation] at hloc
          exact ⟨addressFromGeocode entries, by rw [← hloc]⟩
  · intro hgeo
    obtain ⟨perm, pos, geo⟩ := env
    cases perm
    · simp [getCurrentLocation] at hloc
    · cases pos with
      | error e => simp [getCurrentLocation] at hloc
      | ok latlon =>
        rcases hgeo with hgeo | hgeo
        · cases hgeo
          simp [getCurrentLocation] at hloc
          rw [← hloc]
        · cases hgeo
          simp [getCurrentLocation, addressFromGeocode] at hloc
          rw [← hloc]
  · unfold createMemory
    rw [if_neg htitle]
    simp only [hloc]

/-- Closed instance of `created_record_address_is_string` at an environment
whose reverse-geocode call fails. -/
theorem created_record_address_is_string_witness :
    (∃ str, (LocationCoords.mk 40 (-73) (some "")).address = some str)
      ∧ ((GeoEnv.mk true (.ok (40, -73)) (.error ())).geocode = .error ()
            ∨ (GeoEnv.mk true (.ok (40, -73)) (.error ())).geocode = .ok []
          → (LocationCoords.mk 40 (-73) (some "")).address = some "")
      ∧ (composeRecord 7 ⟨⟨[], .absent⟩, "Coffee", "", "☕", none, true, false⟩
            (LocationCoords.mk 40 (-73) (some ""))).location
          = LocationCoords.mk 40 (-73) (some "")
      ∧ (createMemory (GeoEnv.mk true (.ok (40, -73)) (.error ())) 7 true
            ⟨⟨[], .absent⟩, "Coffee", "", "☕", none, true, false⟩).1.store
          = (saveMemories true
              (composeRecord 7 ⟨⟨[], .absent⟩, "Coffee", "", "☕", none, true, false⟩
                  (LocationCoords.mk 40 (-73) (some ""))
                :: ([] : List LocationMemory)) ⟨[], .absent⟩).1 :=
  created_record_address_is_string (GeoEnv.mk true (.ok (40, -73)) (.error ())) 7 true
    ⟨⟨[], .absent⟩, "Coffee", "", "☕", none, true, false⟩
    (LocationCoords.mk 40 (-73) (some "")) rfl (by decide)

end MemoriesApp

namespace GalleryApp

/-- A `MediaLibrary.Asset` as used by `gallery.tsx`. -/
structure Asset where
  id : String
  uri : String
  creationTime : Int
  filename : String
deriving DecidableEq

/-- The part of `getAssetInfoAsync`'s result the code reads; `localUri` may be
absent. -/
structure AssetInfo where
  localUri : Option String
deriving DecidableEq

/-- The `Photo` interface of `gallery.tsx`. -/
structure Photo where
  id : String
  uri : String
  creationTime : Int
  filename : String
  localUri : Option String
deriving DecidableEq

/-- JS `x || d` on an optional string: both `undefined` and `''` are falsy. -/
def jsOrString (x : Option String) (d : String) : String :=
  match x with
  | some u => if u = "" then d else u
  | none => d

/-- Embeds `getPhotoInfo`: resolve the asset's info for a durable `localUri`; on a
per-asset failure, fall back to the asset's default `uri` (catch branch). -/
def getPhotoInfo (resolve : Asset → Except Unit AssetInfo) (a : Asset) : Photo :=
  match resolve a with
  | .ok info =>
    { id := a.id, uri := jsOrString info.localUri a.uri,
      creationTime := a.creationTime, filename := a.filename,
      localUri := info.localUri }
  | .error _ =>
    { id := a.id, uri := a.uri, creationTime := a.creationTime,
      filename := a.filename, localUri := none }

/-- Embeds `Promise.all(assets.map(asset => getPhotoInfo(asset)))`. -/
def processAssets (resolve : Asset → Except Unit AssetInfo)
    (assets : List Asset) : List Photo :=
  assets.map (getPhotoInfo resolve)

/-- One `photoMap.set(photo.id, photo)` step on a JS `Map` modelled as an
association list in first-insertion key order: an existing key keeps its
position and gets the new value; a new key is appended. -/
def mapSet (m : List Photo) (p : Photo) : List Photo :=
  if m.any (fun q => q.id == p.id) then
    m.map (fun q => if q.id = p.id then p else q)
  else
    m ++ [p]

/-- Descending-by-`creationTime` order used by
`.sort((a, b) => b.creationTime - a.creationTime)`. -/
def photoLE (a b : Photo) : Prop := b.creationTime ≤ a.creationTime

instance : DecidableRel photoLE := fun a b =>
  inferInstanceAs (Decidable (b.creationTime ≤ a.creationTime))

instance : IsTotal Photo photoLE :=
  ⟨fun a b => le_total b.creationTime a.creationTime⟩

instance : IsTrans Photo photoLE :=
  ⟨fun _ _ _ h1 h2 => le_trans h2 h1⟩

/-- The merge/dedup/sort of `loadPhotos`: feed `[...allPhotos, ...recentPhotos]`
through the map (last write for a key wins), take `Array.from(photoMap.values())`
and sort descending by `creationTime` (stably). -/
def mergePhotos (albumPhotos recentPhotos : List Photo) : List Photo :=
  List.insertionSort photoLE ((albumPhotos ++ recentPhotos).foldl mapSet [])

/-- Embeds `loadPhotos` after permission is granted: album query results (absent when
the named album does not exist), then the camera-roll query, each resolved
per-asset, then merged. -/
def loadPhotosResult (resolve : Asset → Except Unit AssetInfo)
    (albumAssets : Option (List Asset)) (recentAssets : List Asset) : List Photo :=
  let allPhotos := match albumAssets with
    | some assets => processAssets resolve assets
    | none => []
  mergePhotos allPhotos (processAssets resolve recentAssets)

/-- A `photoMap.get`-style lookup on the association list. -/
def lookupId (m : List Photo) (i : String) : Option Photo :=
  m.find? (fun q => q.id == i)

/-- The last element of `l` whose id is `i` — the "last write" for key `i`. -/
def lastWrite (l : List Photo) (i : String) : Option Photo :=
  l.reverse.find? (fun q => q.id == i)

end GalleryApp

namespace MemoriesApp

/-- C1, as stated, is false: `JSON.stringify` runs before the in-place sort,
so saving the unsorted list `[exMemOld, exMemNew]` (timestamps 1, 2) persists
it in that unsorted order. -/
theorem save_persists_input_order_counterexample :
    (saveMemories true [exMemOld, exMemNew] ⟨[], .absent⟩).1.stored
        = .good [exMemOld, exMemNew]
      ∧ ¬ List.Sorted memLE [exMemOld, exMemNew] := by
  constructor
  · rfl
  · intro h
    have := List.rel_of_sorted_cons h exMemNew (by simp)
    simp [memLE, exMemOld, exMemNew] at this

/-- C1 (amended): after any save the in-memory collection is sorted
descending by timestamp, and the persisted blob holds exactly the input list;
after a load of a good blob the in-memory collection is sorted; the persisted
collection is sorted whenever the saved input list is sorted (as it is for
every save the app itself issues). -/
theorem save_load_keep_memory_sorted (l : List LocationMemory) (s : StoreState) :
    List.Sorted memLE (saveMemories true l s).1.memories
      ∧ (saveMemories true l s).1.stored = .good l
      ∧ List.Sorted memLE (loadMemories ⟨s.memories, .good l⟩).1.memories
      ∧ (List.Sorted memLE l → (saveMemories true l s).1 = ⟨l, .good l⟩) := by
  refine ⟨?_, rfl, ?_, ?_⟩
  · exact List.sorted_insertionSort memLE l
  · exact List.sorted_insertionSort memLE l
  · intro hl
    simp only [saveMemories, if_pos]
    rw [show sortByTimestampDesc l = l from hl.insertionSort_eq]

/-- Closed instance of `save_load_keep_memory_sorted`, discharging its
implication at a sorted concrete list. -/
theorem save_load_keep_memory_sorted_witness :
    List.Sorted memLE (saveMemories true [exMemNew, exMemOld] ⟨[], .absent⟩).1.memories
      ∧ (saveMemories true [exMemNew, exMemOld] ⟨[], .absent⟩).1.stored
          = .good [exMemNew, exMemOld]
      ∧ List.Sorted memLE
          (loadMemories ⟨([] : List LocationMemory), .good [exMemNew, exMemOld]⟩).1.memories
      ∧ (List.Sorted memLE [exMemNew, exMemOld] →
          (saveMemories true [exMemNew, exMemOld] ⟨[], .absent⟩).1
            = ⟨[exMemNew, exMemOld], .good [exMemNew, exMemOld]⟩) :=
  save_load_keep_memory_sorted [exMemNew, exMemOld] ⟨[], .absent⟩

/-- C2: when the persistence write fails, `saveMemories` leaves the whole
store state unchanged, emits a log and a non-fatal alert, and returns
normally (the error is not propagated). -/
theorem save_failure_leaves_memory_unchanged
    (l : List LocationMemory) (s : StoreState) :
    (saveMemories false l s).1 = s
      ∧ (saveMemories false l s).2 = [.logSaveError, .alertSaveFailed] := by
  exact ⟨rfl, rfl⟩

/-- C3: loading immediately after a successful save changes nothing — the
reloaded in-memory sequence equals the snapshot published by the save (and
the whole store state is a fixed point of `loadMemories`); in particular this
holds for `save(load())`. -/
theorem save_then_load_roundtrip (l : List LocationMemory) (s : StoreState) :
    (loadMemories (saveMemories true l s).1).1 = (saveMemories true l s).1
      ∧ (loadMemories (saveMemories true (loadMemories s).1.memories
            (loadMemories s).1).1).1.memories
          = (saveMemories true (loadMemories s).1.memories (loadMemories s).1).1.memories := by
  constructor
  · rfl
  · rfl

/-- C5: `loadMemories` fails soft — on a corrupt blob it only logs and keeps
the previous in-memory state; on an absent blob it does nothing; it never
rewrites storage and (being a total function) never throws. -/
theorem load_fails_soft (mem : List LocationMemory) :
    loadMemories ⟨mem, .corrupt⟩ = (⟨mem, .corrupt⟩, [.logLoadError])
      ∧ loadMemories ⟨mem, .absent⟩ = (⟨mem, .absent⟩, [])
      ∧ ∀ s : StoreState, (loadMemories s).1.stored = s.stored :=
  ⟨rfl, rfl, fun s => by cases s with
    | mk mem stored => cases stored <;> rfl⟩

end MemoriesApp

namespace GalleryApp

/-- C9: when resolving the durable URI fails for one asset, that asset is
still included (at its position, with its default `uri` as fallback and no
`localUri`), the batch keeps its full length, and every other asset is still
processed to its own `getPhotoInfo` result. -/
theorem failed_asset_gets_fallback_uri
    (resolve : Asset → Except Unit AssetInfo) (assets : List Asset) (a : Asset)
    (ha : a ∈ assets) (hfail : resolve a = .error ()) :
    getPhotoInfo resolve a
        = { id := a.id, uri := a.uri, creationTime := a.creationTime,
            filename := a.filename, localUri := none }
      ∧ ({ id := a.id, uri := a.uri, creationTime := a.creationTime,
            filename := a.filename, localUri := none } : Photo) ∈ processAssets resolve assets
      ∧ (processAssets resolve assets).length = assets.length
      ∧ ∀ b ∈ assets, getPhotoInfo resolve b ∈ processAssets resolve assets := by
  have h1 : getPhotoInfo resolve a
      = { id := a.id, uri := a.uri, creationTime := a.creationTime,
          filename := a.filename, localUri := none } := by
    unfold getPhotoInfo
    rw [hfail]
  refine ⟨h1, ?_, ?_, ?_⟩
  · rw [← h1]
    exact List.mem_map_of_mem (getPhotoInfo resolve) ha
  · exact List.length_map assets (getPhotoInfo resolve)
  · intro b hb
    exact List.mem_map_of_mem (getPhotoInfo resolve) hb

/-- A concrete asset whose info resolution will fail. -/
def exAssetX : Asset := { id := "x", uri := "file:x", creationTime := 1, filename := "x.jpg" }

/-- A concrete asset whose info resolution succeeds. -/
def exAssetY : Asset := { id := "y", uri := "file:y", creationTime := 2, filename := "y.jpg" }

/-- A concrete resolver failing exactly on `exAssetX`. -/
def exResolve (a : Asset) : Except Unit AssetInfo :=
  if a.id = "x" then .error () else .ok { localUri := some "ph://y" }

/-- Closed instance of `failed_asset_gets_fallback_uri` on a two-asset batch
whose first asset fails to resolve. -/
theorem failed_asset_gets_fallback_uri_witness :
    getPhotoInfo exResolve exAssetX
        = { id := exAssetX.id, uri := exAssetX.uri, creationTime := exAssetX.creationTime,
            filename := exAssetX.filename, localUri := none }
      ∧ ({ id := exAssetX.id, uri := exAssetX.uri, creationTime := exAssetX.creationTime,
            filename := exAssetX.filename, localUri := none } : Photo)
          ∈ processAssets exResolve [exAssetX, exAssetY]
      ∧ (processAssets exResolve [exAssetX, exAssetY]).length = [exAssetX, exAssetY].length
      ∧ ∀ b ∈ [exAssetX, exAssetY],
          getPhotoInfo exResolve b ∈ processAssets exResolve [exAssetX, exAssetY] :=
  failed_asset_gets_fallback_uri exResolve [exAssetX, exAssetY] exAssetX
    (by decide) rfl

end GalleryApp

namespace GalleryApp

/-- One `Map.set` step, observed through lookup: the key being written now
maps to the new photo; other keys are untouched. -/
theorem lookupId_mapSet (m : List Photo) (p : Photo) (i : String) :
    lookupId (mapSet m p) i = if i = p.id then some p else lookupId m i := by
  unfold mapSet
  by_cases hany : m.any (fun q => q.id == p.id) = true
  · rw [if_pos hany]
    have hid : ∀ q : Photo, (if q.id = p.id then p else q).id = q.id := by
      intro q
      by_cases h : q.id = p.id
      · simp [h]
      · simp [h]
    have hmap : lookupId (m.map (fun q => if q.id = p.id then p else q)) i
        = (lookupId m i).map (fun q => if q.id = p.id then p else q) := by
      unfold lookupId
      rw [List.find?_map]
      have hpred : ((fun q : Photo => q.id == i) ∘ fun q => if q.id = p.id then p else q)
          = fun q : Photo => q.id == i := by
        funext q
        simp only [Function.comp_apply, hid q]
      rw [hpred]
    rw [hmap]
    by_cases hi : i = p.id
    · rw [if_pos hi]
      have hex : ∃ q, q ∈ m ∧ (q.id == p.id) = true := by
        simpa [List.any_eq_true] using hany
      obtain ⟨q, hqm, hq⟩ := hex
      cases hfind : lookupId m i with
      | none =>
        rw [lookupId, List.find?_eq_none] at hfind
        have hq' := hfind q hqm
        rw [hi] at hq'
        exact absurd hq (by simpa using hq')
      | some q₀ =>
        have hq₀ : q₀.id = i := by simpa using List.find?_some hfind
        have hq₀' : q₀.id = p.id := hq₀.trans hi
        simp [hq₀']
    · rw [if_neg hi]
      cases hfind : lookupId m i with
      | none => simp
      | some q₀ =>
        have hq₀ : q₀.id = i := by simpa using List.find?_some hfind
        have hne : ¬ q₀.id = p.id := by
          rw [hq₀]
          exact hi
        simp [hne]
  · rw [if_neg hany]
    unfold lookupId
    rw [List.find?_append]
    have hnone : ∀ q ∈ m, ¬ ((q.id == p.id) = true) := by
      intro q hq hcontra
      exact hany (List.any_eq_true.mpr ⟨q, hq, hcontra⟩)
    by_cases hi : i = p.id
    · rw [if_pos hi]
      have h1 : List.find? (fun q => q.id == i) m = none := by
        rw [List.find?_eq_none]
        intro q hq
        rw [hi]
        exact hnone q hq
      rw [h1]
      have h2 : (p.id == i) = true := by simp [hi]
      simp only [List.find?]
      rw [h2]
      rfl
    · rw [if_neg hi]
      have h2 : (p.id == i) = false := by
        simp only [beq_eq_false_iff_ne, ne_eq]
        intro h
        exact hi h.symm
      simp only [List.find?]
      rw [h2]
      exact Option.or_none

/-- Folding the whole input through the map realizes last-write-wins: a key's
final value is its last occurrence in the input, falling back to the
accumulator. -/
theorem lookupId_foldl_mapSet (l : List Photo) (acc : List Photo) (i : String) :
    lookupId (l.foldl mapSet acc) i = (lastWrite l i).or (lookupId acc i) := by
  induction l generalizing acc with
  | nil => simp [lastWrite]
  | cons x xs ih =>
    rw [List.foldl_cons, ih (mapSet acc x), lookupId_mapSet]
    have hlw : lastWrite (x :: xs) i
        = (lastWrite xs i).or (if (x.id == i) = true then some x else none) := by
      unfold lastWrite
      rw [List.reverse_cons, List.find?_append]
      congr 1
      by_cases h : (x.id == i) = true
      · rw [if_pos h]
        simp only [List.find?]
        rw [h]
      · rw [if_neg h]
        rw [Bool.not_eq_true] at h
        simp only [List.find?]
        rw [h]
    rw [hlw]
    by_cases hi : i = x.id
    · rw [if_pos hi]
      have hx : (x.id == i) = true := by simp [hi]
      rw [if_pos hx]
      cases lastWrite xs i <;> simp
    · rw [if_neg hi]
      have hx : ¬ (x.id == i) = true := by
        simp only [beq_iff_eq]
        exact fun h => hi h.symm
      rw [if_neg hx]
      cases lastWrite xs i <;> simp

/-- The `Map.set` step never duplicates a key. -/
theorem idsNodup_mapSet (m : List Photo) (p : Photo)
    (h : (m.map (fun q => q.id)).Nodup) :
    ((mapSet m p).map (fun q => q.id)).Nodup := by
  unfold mapSet
  by_cases hany : m.any (fun q => q.id == p.id) = true
  · rw [if_pos hany]
    have hmap : (m.map (fun q => if q.id = p.id then p else q)).map (fun q => q.id)
        = m.map (fun q => q.id) := by
      rw [List.map_map]
      apply List.map_congr_left
      intro q _
      by_cases hq : q.id = p.id
      · simp [Function.comp, hq]
      · simp [Function.comp, hq]
    rwa [hmap]
  · rw [if_neg hany, List.map_append]
    refine h.append (List.nodup_singleton _) ?_
    intro a ha hb
    have hb' : a = p.id := by simpa using hb
    subst hb'
    obtain ⟨q, hqm, hq⟩ := List.mem_map.mp ha
    exact hany (List.any_eq_true.mpr ⟨q, hqm, by simp [hq]⟩)

/-- The merge map built by the fold has pairwise-distinct keys. -/
theorem idsNodup_foldl_mapSet (l acc : List Photo)
    (h : (acc.map (fun q => q.id)).Nodup) :
    ((l.foldl mapSet acc).map (fun q => q.id)).Nodup := by
  induction l generalizing acc with
  | nil => simpa using h
  | cons x xs ih => exact ih _ (idsNodup_mapSet acc x h)

/-- In a list with pairwise-distinct ids, membership is exactly being the
lookup result for one's own id. -/
theorem mem_iff_lookupId (m : List Photo)
    (h : (m.map (fun q => q.id)).Nodup) (p : Photo) :
    p ∈ m ↔ lookupId m p.id = some p := by
  constructor
  · intro hp
    induction m with
    | nil => cases hp
    | cons x xs ih =>
      rcases List.mem_cons.mp hp with rfl | hxs
      · unfold lookupId
        have hself : (p.id == p.id) = true := by simp
        simp only [List.find?]
        rw [hself]
      · have hn : (∀ y ∈ xs, ¬ y.id = x.id) ∧ (List.map (fun q => q.id) xs).Nodup := by
          simpa using h
        have hne : (x.id == p.id) = false := by
          simp only [beq_eq_false_iff_ne, ne_eq]
          intro heq
          exact hn.1 p hxs heq.symm
        unfold lookupId
        simp only [List.find?]
        rw [hne]
        exact ih hn.2 hxs
  · exact fun hl => List.mem_of_find?_eq_some hl

/-- The general shape of the gallery merge: sorted output, no duplicate ids,
and membership is exactly "being the last write for one's id" over the
concatenation (roll results after album results). -/
theorem mergePhotos_props (A R : List Photo) :
    List.Sorted photoLE (mergePhotos A R)
      ∧ ((mergePhotos A R).map (fun q => q.id)).Nodup
      ∧ ∀ p, p ∈ mergePhotos A R ↔ lastWrite (A ++ R) p.id = some p := by
  have hnodupFold : (((A ++ R).foldl mapSet []).map (fun q => q.id)).Nodup :=
    idsNodup_foldl_mapSet (A ++ R) [] (by simp)
  have hperm : List.Perm (mergePhotos A R) ((A ++ R).foldl mapSet []) :=
    List.perm_insertionSort photoLE _
  refine ⟨List.sorted_insertionSort photoLE _, ?_, ?_⟩
  · exact ((hperm.map (fun q => q.id)).nodup_iff).mpr hnodupFold
  · intro p
    rw [show mergePhotos A R = List.insertionSort photoLE ((A ++ R).foldl mapSet []) from rfl,
      List.mem_insertionSort, mem_iff_lookupId _ hnodupFold p, lookupId_foldl_mapSet]
    simp [lookupId]

end GalleryApp

namespace GalleryApp

/-- A photo carrying only the fields the spec's merge vector fixes (id and
creation time); the other fields are set from the id. -/
def exPhoto (i : String) (t : Int) : Photo :=
  { id := i, uri := i, creationTime := t, filename := i, localUri := none }

/-- C4: on the spec's vector — album `[a:5, b:3]`, roll `[b:3, c:8]` — the
merge yields exactly `[c:8, a:5, b:3]` with a single `"b"` entry; and in
general the merge is keyed by id with the last write (roll after album)
winning, and sorted descending by `creationTime`. -/
theorem gallery_merge_last_write_wins_sorted :
    mergePhotos [exPhoto "a" 5, exPhoto "b" 3] [exPhoto "b" 3, exPhoto "c" 8]
        = [exPhoto "c" 8, exPhoto "a" 5, exPhoto "b" 3]
      ∧ ((mergePhotos [exPhoto "a" 5, exPhoto "b" 3] [exPhoto "b" 3, exPhoto "c" 8]).filter
            (fun p => p.id == "b")).length = 1
      ∧ ∀ (A R : List Photo),
          List.Sorted photoLE (mergePhotos A R)
            ∧ ((mergePhotos A R).map (fun q => q.id)).Nodup
            ∧ ∀ p, p ∈ mergePhotos A R ↔ lastWrite (A ++ R) p.id = some p := by
  refine ⟨?_, ?_, mergePhotos_props⟩
  · decide
  · decide

end GalleryApp
